import Mathlib

/-!
Shallow embedding of the keystroke-dynamics core (feature extraction,
transcript validation, training gate logic, prediction) of the
Typing-Style-Recognition repository, together with theorems settling the
frozen specification claims.

Timestamps and similarity thresholds are modelled over `ℚ` (the Python
code computes with floats; every claim under scrutiny is about exact
branch conditions and arithmetic identities, not float rounding).  The
standard deviation, which the source computes with `sqrt`, is modelled
over `ℝ` via `Real.sqrt`.  The classifier, the train/test splitter and
the model store are external collaborators (sklearn / joblib); they are
modelled as an opaque `Backend` structure, exactly as the specification
treats them ("an opaque classifier capability").
-/

namespace Keystyle

/-- Direction of a key transition, the `'down'` / `'up'` tag of an event dict. -/
inductive EType where
  | down
  | up
  deriving DecidableEq, Repr

/-- One captured key event: `{'key': …, 'type': …, 't': …}`. -/
structure KeyEvent where
  key : String
  type : EType
  t : ℚ
  deriving DecidableEq, Repr

/-- Comparison used by `all_events.sort(key=lambda x: x[0])`: order by timestamp. -/
def leT (a b : KeyEvent) : Prop := a.t ≤ b.t

instance : DecidableRel leT := fun a b => inferInstanceAs (Decidable (a.t ≤ b.t))

instance : IsTotal KeyEvent leT := ⟨fun a b => le_total a.t b.t⟩

instance : IsTrans KeyEvent leT := ⟨fun _ _ _ h1 h2 => le_trans h1 h2⟩

/-- Stable sort of the events by timestamp (Python `list.sort` is stable;
`List.insertionSort` is stable as well: ties keep input order). -/
def sortByTime (events : List KeyEvent) : List KeyEvent :=
  List.insertionSort leT events

/-- Enqueue a press timestamp at the tail of the per-key queue
(`pending_downs[key].append(timestamp)`; an absent key reads as `[]`). -/
def qpush (q : String → List ℚ) (k : String) (x : ℚ) : String → List ℚ :=
  fun k2 => if k2 = k then q k ++ [x] else q k2

/-- Overwrite one key's queue (used after `pending_downs[key].pop(0)`). -/
def qset (q : String → List ℚ) (k : String) (v : List ℚ) : String → List ℚ :=
  fun k2 => if k2 = k then v else q k2

/-- Body of the dwell-matching loop of `extract_features`: a `down` event
enqueues its timestamp, an `up` event pops the oldest pending press of the
same key (if any) and records the difference when strictly positive. -/
def dwellStep (st : (String → List ℚ) × List ℚ) (e : KeyEvent) :
    (String → List ℚ) × List ℚ :=
  match e.type with
  | EType.down => (qpush st.1 e.key e.t, st.2)
  | EType.up =>
    match st.1 e.key with
    | [] => st
    | t0 :: rest =>
      (qset st.1 e.key rest, if e.t - t0 > 0 then st.2 ++ [e.t - t0] else st.2)

/-- Run the dwell-matching loop over a list of events from the empty state. -/
def dwellRun (l : List KeyEvent) : (String → List ℚ) × List ℚ :=
  l.foldl dwellStep (fun _ => [], [])

/-- The `dwell_times` list of `extract_features`: the loop runs over the
events sorted (stably) by timestamp. -/
def dwellTimes (events : List KeyEvent) : List ℚ :=
  (dwellRun (sortByTime events)).2

/-- Append a press timestamp into the insertion-ordered `keydowns` dict
(`keydowns[key].append(timestamp)`, creating the key at the end on first use). -/
def addDown (al : List (String × List ℚ)) (k : String) (x : ℚ) :
    List (String × List ℚ) :=
  match al with
  | [] => [(k, [x])]
  | (k2, ts) :: rest =>
    if k2 = k then (k2, ts ++ [x]) :: rest else (k2, ts) :: addDown rest k x

/-- One iteration of the event loop that builds the `keydowns` dict (the
`keyups` dict built alongside it in the source is dead code and omitted). -/
def kdStep (al : List (String × List ℚ)) (e : KeyEvent) :
    List (String × List ℚ) :=
  match e.type with
  | EType.down => addDown al e.key e.t
  | EType.up => al

/-- The `keydowns` dict: per-key press timestamps in event order, keys in
order of first appearance (Python dict preserves insertion order). -/
def keydownsList (events : List KeyEvent) : List (String × List ℚ) :=
  events.foldl kdStep []

/-- Flatten a `keydowns`-style association list into `(timestamp, key)`
pairs in dict iteration order (the nested `for` loops of the source). -/
def flattenAl (al : List (String × List ℚ)) : List (ℚ × String) :=
  al.foldr (fun p acc => (p.2.map fun x => (x, p.1)) ++ acc) []

/-- The `all_downs` list before sorting. -/
def allDowns (events : List KeyEvent) : List (ℚ × String) :=
  flattenAl (keydownsList events)

/-- Comparison used by `all_downs.sort(key=lambda x: x[0])`. -/
def leF (a b : ℚ × String) : Prop := a.1 ≤ b.1

instance : DecidableRel leF := fun a b => inferInstanceAs (Decidable (a.1 ≤ b.1))

instance : IsTotal (ℚ × String) leF := ⟨fun a b => le_total a.1 b.1⟩

instance : IsTrans (ℚ × String) leF := ⟨fun _ _ _ h1 h2 => le_trans h1 h2⟩

/-- Strictly positive consecutive differences of a list
(`flight_time = all_downs[i+1][0] - all_downs[i][0]`, kept when `> 0`). -/
def posDiffs : List ℚ → List ℚ
  | a :: b :: rest => (if b - a > 0 then [b - a] else []) ++ posDiffs (b :: rest)
  | _ => []

/-- The `flight_times` list of `extract_features`. -/
def flightTimes (events : List KeyEvent) : List ℚ :=
  posDiffs ((List.insertionSort leF (allDowns events)).map Prod.fst)

/-- Mean of a list of samples (`statistics.mean`). -/
def fmean (l : List ℚ) : ℚ := l.sum / l.length

/-- Sample variance with the `n - 1` denominator (the square of
`statistics.stdev`). -/
def sampleVar (l : List ℚ) : ℚ :=
  ((l.map fun x => (x - fmean l) ^ 2).sum) / ((l.length : ℚ) - 1)

/-- Standard deviation of the samples: `statistics.stdev(values)` when the
list has more than one element, else the literal `0.0` of the source. -/
noncomputable def fstdev (l : List ℚ) : ℝ :=
  if 1 < l.length then Real.sqrt (sampleVar l) else 0

/-- Median (`statistics.median`): middle element of the sorted samples, or
the average of the two middle elements for even length. -/
def fmedian (l : List ℚ) : ℚ :=
  if l.length % 2 = 1 then
    (List.insertionSort (fun a b => a ≤ b) l).getD (l.length / 2) 0
  else
    ((List.insertionSort (fun a b => a ≤ b) l).getD (l.length / 2 - 1) 0 +
      (List.insertionSort (fun a b => a ≤ b) l).getD (l.length / 2) 0) / 2

/-- The `calc_stats` helper of `extract_features`: `(mean, stdev, median)`
of a sample list, all zero for the empty list. -/
noncomputable def calc_stats (l : List ℚ) : ℚ × ℝ × ℚ :=
  if l = [] then (0, 0, 0) else (fmean l, fstdev l, fmedian l)

/-- The fixed six-feature result of `extract_features`, fields in the
order of the source dict. -/
@[ext]
structure FeatureVector where
  dwell_mean : ℚ
  dwell_std : ℝ
  dwell_median : ℚ
  flight_mean : ℚ
  flight_std : ℝ
  flight_median : ℚ

/-- The all-zero feature vector returned for degenerate input. -/
def zeroFeatures : FeatureVector := ⟨0, 0, 0, 0, 0, 0⟩

/-- `extract_features(events)`: zeros when fewer than 2 events, otherwise
the dwell and flight statistics in the fixed order of the source. -/
noncomputable def extract_features (events : List KeyEvent) : FeatureVector :=
  if events.length < 2 then zeroFeatures
  else
    { dwell_mean := (calc_stats (dwellTimes events)).1
      dwell_std := (calc_stats (dwellTimes events)).2.1
      dwell_median := (calc_stats (dwellTimes events)).2.2
      flight_mean := (calc_stats (flightTimes events)).1
      flight_std := (calc_stats (flightTimes events)).2.1
      flight_median := (calc_stats (flightTimes events)).2.2 }

/-- Python `str.strip()` on a character list. -/
def pythonStrip (l : List Char) : List Char :=
  ((l.dropWhile Char.isWhitespace).reverse.dropWhile Char.isWhitespace).reverse

/-- Python `str.strip()` on a string. -/
def stripStr (s : String) : String := String.mk (pythonStrip s.toList)

/-- `text.strip().lower()`: the normalization applied by
`validate_typed_text` to both arguments. -/
def cleanText (s : String) : List Char :=
  (pythonStrip s.toList).map Char.toLower

/-- The matching loop of `validate_typed_text`: scan the typed characters
once left to right, advancing in the prompt on each match; the result is the
number of prompt characters matched in order. -/
def countMatches : List Char → List Char → ℕ
  | [], _ => 0
  | _ :: rest, [] => countMatches rest []
  | c :: rest, q :: ptl =>
    if c = q then 1 + countMatches rest ptl else countMatches rest (q :: ptl)

/-- `validate_typed_text(typed_text, prompt, min_similarity=0.8)`. -/
def validate_typed_text (typed_text : String) (prompt : String)
    (min_similarity : ℚ := 4 / 5) : Bool :=
  if cleanText typed_text = cleanText prompt then true
  else if (cleanText prompt).length = 0 then false
  else
    decide (min_similarity ≤
      (countMatches (cleanText typed_text) (cleanText prompt) : ℚ) /
        ((cleanText prompt).length : ℚ))

/-- A stored session: its user label and its captured events (the other
fields of the session dict play no role in the claims). -/
structure Session where
  user : String
  events : List KeyEvent
  deriving DecidableEq

/-- Increment one user's count in the insertion-ordered `user_counts` dict. -/
def addCount (al : List (String × ℕ)) (k : String) : List (String × ℕ) :=
  match al with
  | [] => [(k, 1)]
  | (k2, c) :: rest =>
    if k2 = k then (k2, c + 1) :: rest else (k2, c) :: addCount rest k

/-- The `user_counts` dict of `check_minimum_samples`. -/
def user_counts (sessions : List Session) : List (String × ℕ) :=
  sessions.foldl (fun al s => addCount al s.user) []

/-- The `has_enough` flag of `check_minimum_samples`:
`all(count >= min_per_user for count in user_counts.values() if count > 0)`. -/
def has_enough (sessions : List Session) (min_per_user : ℕ) : Bool :=
  ((user_counts sessions).filter fun p => decide (0 < p.2)).all
    fun p => decide (min_per_user ≤ p.2)

/-- The external ML collaborators (sklearn splitter and classifier, joblib
store), kept opaque exactly as the specification prescribes. -/
structure Backend where
  Model : Type
  splitFn : List (List ℝ) → List String → ℚ → ℕ → List String →
    List (List ℝ) × List (List ℝ) × List String × List String
  fit : List (List ℝ) → List String → Model
  predictLabel : Model → List ℝ → String
  predictProba : Model → List ℝ → List ℚ
  classes : Model → List String

/-- The fixed-order conversion of the feature dict to a row, as written in
`prepare_features` of `train.py`. -/
noncomputable def toVectorTrain (f : FeatureVector) : List ℝ :=
  [(f.dwell_mean : ℝ), f.dwell_std, (f.dwell_median : ℝ),
    (f.flight_mean : ℝ), f.flight_std, (f.flight_median : ℝ)]

/-- The fixed-order conversion of the feature dict to a row, as written
(independently) in `predict_user` of `predict.py`. -/
noncomputable def toVectorPredict (f : FeatureVector) : List ℝ :=
  [(f.dwell_mean : ℝ), f.dwell_std, (f.dwell_median : ℝ),
    (f.flight_mean : ℝ), f.flight_std, (f.flight_median : ℝ)]

/-- The feature-order list persisted by a successful training run. -/
def feature_order : List String :=
  ["dwell_mean", "dwell_std", "dwell_median",
    "flight_mean", "flight_std", "flight_median"]

/-- `prepare_features(sessions)`: the feature rows and the label list. -/
noncomputable def prepare_features (sessions : List Session) :
    List (List ℝ) × List String :=
  (sessions.map fun s => toVectorTrain (extract_features s.events),
    sessions.map fun s => s.user)

/-- sklearn `accuracy_score`: fraction of positions where the prediction
equals the true label. -/
def accuracy_score (ytrue ypred : List String) : ℚ :=
  (((ytrue.zip ypred).countP fun p => decide (p.1 = p.2) : ℕ) : ℚ) /
    (ytrue.length : ℚ)

/-- Result of a training run, mirroring the result dict of `train_model`:
the three failure shapes and the success report with its five fields. -/
inductive TrainResult where
  | noData
  | insufficientSamples (counts : List (String × ℕ))
  | insufficientClasses
  | success (accuracy : ℚ) (counts : List (String × ℕ))
      (total train_size test_size : ℕ)
  deriving DecidableEq, Repr

/-- The data-splitting step of `train_model`: with at least 10 sessions the
external splitter is called with the test fraction, the fixed seed 42 and
`y` as the stratification labels; otherwise train and test are both the
full dataset. -/
noncomputable def splitData (B : Backend) (X : List (List ℝ)) (y : List String)
    (test_fraction : ℚ) (total : ℕ) :
    List (List ℝ) × List (List ℝ) × List String × List String :=
  if 10 ≤ total then B.splitFn X y test_fraction 42 y else (X, X, y, y)

/-- `train_model`: the guarded training pipeline of `train.py` (the
persisted side effects are outside the embedding; the returned report is
modelled exactly). -/
noncomputable def train_model (B : Backend) (sessions : List Session)
    (min_per_user : ℕ := 10) (test_fraction : ℚ := 1 / 5) : TrainResult :=
  if sessions.length = 0 then TrainResult.noData
  else if has_enough sessions min_per_user = false then
    TrainResult.insufficientSamples (user_counts sessions)
  else if ((prepare_features sessions).2.dedup).length < 2 then
    TrainResult.insufficientClasses
  else
    TrainResult.success
      (accuracy_score
        (splitData B (prepare_features sessions).1 (prepare_features sessions).2
            test_fraction sessions.length).2.2.2
        ((splitData B (prepare_features sessions).1 (prepare_features sessions).2
            test_fraction sessions.length).2.1.map
          (B.predictLabel
            (B.fit
              (splitData B (prepare_features sessions).1
                  (prepare_features sessions).2 test_fraction sessions.length).1
              (splitData B (prepare_features sessions).1
                  (prepare_features sessions).2 test_fraction
                  sessions.length).2.2.1))))
      (user_counts sessions)
      sessions.length
      (splitData B (prepare_features sessions).1 (prepare_features sessions).2
          test_fraction sessions.length).1.length
      (splitData B (prepare_features sessions).1 (prepare_features sessions).2
          test_fraction sessions.length).2.1.length

/-- Python `max` over a nonempty list (the `[]` case never arises in the
source; it is given the junk value `0`). -/
def pyMax : List ℚ → ℚ
  | [] => 0
  | a :: rest => rest.foldl max a

/-- Result of `predict_user`: the model-not-found failure or the success
dict with predicted label, confidence and the class-probability mapping. -/
inductive PredictResult where
  | modelNotFound
  | success (predicted_user : String) (confidence : ℚ)
      (probabilities : List (String × ℚ))

/-- `predict_user(events)`: fails when no persisted model exists, otherwise
extracts features, builds the fixed-order row, and reports the predicted
label, the maximum class probability as confidence, and the mapping from
class names to probabilities. -/
noncomputable def predict_user (B : Backend) (store : Option B.Model)
    (events : List KeyEvent) : PredictResult :=
  match store with
  | none => PredictResult.modelNotFound
  | some m =>
    PredictResult.success
      (B.predictLabel m (toVectorPredict (extract_features events)))
      (pyMax (B.predictProba m (toVectorPredict (extract_features events))))
      ((B.classes m).zip
        (B.predictProba m (toVectorPredict (extract_features events))))

/-- The fixed prompt of the application. -/
def PROMPT_TEXT : String := "the quick brown fox jumps over the lazy dog"

/-- Outcome of `KeystrokeApp.save_session`: the three guard failures (each
a warning dialog plus early return in the source) or a saved session. -/
inductive SaveResult where
  | emptyText
  | validationFailed
  | tooFewEvents
  | saved
  deriving DecidableEq, Repr

/-- `KeystrokeApp.save_session`: the guard sequence of the source — empty
stripped text, then transcript validation against the prompt, then the
minimum-event-count check, then the save. -/
def save_session (typed_text : String) (events : List KeyEvent) : SaveResult :=
  if stripStr typed_text = String.mk [] then SaveResult.emptyText
  else if validate_typed_text (stripStr typed_text) PROMPT_TEXT = false then
    SaveResult.validationFailed
  else if events.length < 4 then SaveResult.tooFewEvents
  else SaveResult.saved

/-- Outcome of `KeystrokeApp.predict_action`: the three guard failures or
the result of the delegated `predict_user` call. -/
inductive PredictActionResult where
  | emptyText
  | validationFailed
  | tooFewEvents
  | result (r : PredictResult)

/-- `KeystrokeApp.predict_action`: the same guard sequence as
`save_session`, then delegation to `predict_user`. -/
noncomputable def predict_action (B : Backend) (store : Option B.Model)
    (typed_text : String) (events : List KeyEvent) : PredictActionResult :=
  if stripStr typed_text = String.mk [] then PredictActionResult.emptyText
  else if validate_typed_text (stripStr typed_text) PROMPT_TEXT = false then
    PredictActionResult.validationFailed
  else if events.length < 4 then PredictActionResult.tooFewEvents
  else PredictActionResult.result (predict_user B store events)

/-- Press timestamps of an event list, in event order, ignoring keys
(specification wording for the flight-time input). -/
def pressTimestamps (events : List KeyEvent) : List ℚ :=
  (events.filter fun e => decide (e.type = EType.down)).map KeyEvent.t

/-- Ascending sort of rational samples. -/
def sortQ (l : List ℚ) : List ℚ := List.insertionSort (fun a b => a ≤ b) l

/-- Modelled from the spec: flight samples are the strictly positive
consecutive differences of all press timestamps sorted ascending, key
identifiers ignored. -/
def flightSpec (events : List KeyEvent) : List ℚ :=
  posDiffs (sortQ (pressTimestamps events))

/-- Modelled from the spec: the median as the middle element of the sorted
samples, or the average of the two middle elements. -/
def medianSpec (l : List ℚ) : ℚ :=
  ((sortQ l).getD ((l.length - 1) / 2) 0 + (sortQ l).getD (l.length / 2) 0) / 2

/-! Concrete material used by examples, witnesses and counterexamples. -/

/-- Sample key identifier. -/
def keyA : String := "a"

/-- Another sample key identifier. -/
def keyB : String := "b"

/-- A press event. -/
def evDown (k : String) (x : ℚ) : KeyEvent := ⟨k, EType.down, x⟩

/-- A release event. -/
def evUp (k : String) (x : ℚ) : KeyEvent := ⟨k, EType.up, x⟩

/-- Typed-text example accepted by normalization equality. -/
def exTyped1 : String := "The Quick Brown Fox"

/-- Prompt of the accepted example. -/
def exPrompt1 : String := "the quick brown fox"

/-- Typed-text example far below the similarity threshold. -/
def exTyped2 : String := "xyz"

/-- A trivial concrete instantiation of the opaque ML backend, used to
instantiate universally quantified theorems in witnesses. -/
def trivialBackend : Backend where
  Model := Unit
  splitFn := fun X y _ _ _ => (X, X, y, y)
  fit := fun _ _ => ()
  predictLabel := fun _ _ => keyA
  predictProba := fun _ _ => [1, 0]
  classes := fun _ => [keyA, keyB]

/-! Helper lemmas. -/

theorem countMatches_nil (l : List Char) : countMatches l [] = 0 := by
  induction l with
  | nil => rfl
  | cons c rest ih => simpa [countMatches] using ih

theorem validate_typed_text_iff (typed prompt : String) :
    validate_typed_text typed prompt = true ↔
      (cleanText typed = cleanText prompt ∨
        (4 : ℚ) / 5 ≤ (countMatches (cleanText typed) (cleanText prompt) : ℚ) /
          ((cleanText prompt).length : ℚ)) := by
  by_cases h1 : cleanText typed = cleanText prompt
  · simp [validate_typed_text, h1]
  · by_cases h2 : (cleanText prompt).length = 0
    · have h2' : cleanText prompt = [] := List.length_eq_zero.mp h2
      rw [h2'] at h1
      simp only [validate_typed_text, h2', h1, countMatches_nil, if_neg h1]
      norm_num
    · simp [validate_typed_text, h1, h2]

theorem validate_xyz_false : validate_typed_text exTyped2 PROMPT_TEXT = false := by
  rw [Bool.eq_false_iff]
  intro h
  rcases (validate_typed_text_iff exTyped2 PROMPT_TEXT).mp h with hA | hB
  · exact absurd hA (by decide)
  · rw [show countMatches (cleanText exTyped2) (cleanText PROMPT_TEXT) = 0 from by decide]
      at hB
    norm_num at hB

/-- C2: `validate_typed_text(typed, prompt)` returns true iff the
strip-and-lowercase normalizations are exactly equal, or the count of prompt
characters matched in order by one left-to-right scan of the normalized
typed text, divided by the normalized prompt length, is at least 0.8; it
accepts ("The Quick Brown Fox", "the quick brown fox") and rejects
("xyz", "the quick brown fox jumps over the lazy dog"). -/
theorem c2_validate_typed_text :
    (∀ typed prompt : String,
      validate_typed_text typed prompt = true ↔
        (cleanText typed = cleanText prompt ∨
          (4 : ℚ) / 5 ≤ (countMatches (cleanText typed) (cleanText prompt) : ℚ) /
            ((cleanText prompt).length : ℚ)))
    ∧ validate_typed_text exTyped1 exPrompt1 = true
    ∧ validate_typed_text exTyped2 PROMPT_TEXT = false :=
  ⟨validate_typed_text_iff, by decide, validate_xyz_false⟩

/-- C3: `extract_features` is total and pure by construction (it is a plain
function of its argument), and on any event sequence with fewer than 2
events it returns the all-zero six-feature vector. -/
theorem c3_degenerate_zero (events : List KeyEvent) (h : events.length < 2) :
    extract_features events = zeroFeatures := by
  unfold extract_features
  rw [if_pos h]

/-- Witness for C3 at the empty event sequence. -/
theorem c3_degenerate_zero_witness :
    ([] : List KeyEvent).length < 2 ∧ extract_features [] = zeroFeatures :=
  ⟨by decide, c3_degenerate_zero [] (by decide)⟩

/-- Counterexample to C10 as stated: with fewer than 4 events but a
transcript failing the validation gate, `save_session` and
`predict_action` fail with the validation condition, not with the
too-few-events condition (the event-count check runs after the gate). -/
theorem c10_counterexample :
    ([] : List KeyEvent).length < 4 ∧
    save_session exTyped2 [] = SaveResult.validationFailed ∧
    save_session exTyped2 [] ≠ SaveResult.tooFewEvents ∧
    predict_action trivialBackend none exTyped2 [] =
      PredictActionResult.validationFailed := by
  have hs : stripStr exTyped2 = exTyped2 := by decide
  have hne : ¬ stripStr exTyped2 = String.mk [] := by decide
  refine ⟨by decide, ?_, ?_, ?_⟩
  · unfold save_session
    rw [if_neg hne, if_pos (by rw [hs, validate_xyz_false])]
  · unfold save_session
    rw [if_neg hne, if_pos (by rw [hs, validate_xyz_false])]
    decide
  · unfold predict_action
    rw [if_neg hne, if_pos (by rw [hs, validate_xyz_false])]

/-- C10 (amended): for every event sequence with fewer than 4 events, when
the transcript gate passes (stripped text nonempty and validating against
the prompt), session-saving and prediction both fail with the
too-few-events condition; the failure is a structured result of a total
function, not a process termination. -/
theorem c10_too_few_events (B : Backend) (store : Option B.Model)
    (typed : String) (events : List KeyEvent)
    (h1 : ¬ stripStr typed = String.mk [])
    (h2 : validate_typed_text (stripStr typed) PROMPT_TEXT = true)
    (h3 : events.length < 4) :
    save_session typed events = SaveResult.tooFewEvents ∧
    predict_action B store typed events = PredictActionResult.tooFewEvents := by
  have h2' : ¬ validate_typed_text (stripStr typed) PROMPT_TEXT = false := by
    rw [h2]; decide
  constructor
  · unfold save_session
    rw [if_neg h1, if_neg h2', if_pos h3]
  · unfold predict_action
    rw [if_neg h1, if_neg h2', if_pos h3]

/-- Witness for C10 (amended): the prompt itself typed with no events. -/
theorem c10_too_few_events_witness :
    (¬ stripStr PROMPT_TEXT = String.mk []) ∧
    validate_typed_text (stripStr PROMPT_TEXT) PROMPT_TEXT = true ∧
    ([] : List KeyEvent).length < 4 ∧
    save_session PROMPT_TEXT [] = SaveResult.tooFewEvents ∧
    predict_action trivialBackend none PROMPT_TEXT [] =
      PredictActionResult.tooFewEvents := by
  refine ⟨by decide, by decide, by decide, ?_⟩
  exact c10_too_few_events trivialBackend none PROMPT_TEXT []
    (by decide) (by decide) (by decide)

/-- Total count recorded for a user label in a counts association list. -/
def countIn (al : List (String × ℕ)) (u : String) : ℕ :=
  ((al.filter fun p => decide (p.1 = u)).map Prod.snd).sum

theorem countIn_cons (k2 : String) (c : ℕ) (rest : List (String × ℕ))
    (u : String) :
    countIn ((k2, c) :: rest) u = (if k2 = u then c else 0) + countIn rest u := by
  by_cases h : k2 = u
  · simp [countIn, h]
  · simp [countIn, h]

theorem countIn_addCount (al : List (String × ℕ)) (k u : String) :
    countIn (addCount al k) u = countIn al u + (if k = u then 1 else 0) := by
  induction al with
  | nil =>
    rw [show addCount [] k = [(k, 1)] from rfl, countIn_cons,
      show countIn [] u = 0 from rfl]
    split_ifs <;> omega
  | cons p rest ih =>
    obtain ⟨k2, c⟩ := p
    rw [addCount]
    by_cases h : k2 = k
    · rw [if_pos h, countIn_cons, countIn_cons]
      subst h
      split_ifs <;> omega
    · rw [if_neg h, countIn_cons, countIn_cons, ih]
      split_ifs <;> omega

theorem countIn_user_counts (sessions : List Session) (u : String) :
    countIn (user_counts sessions) u =
      sessions.countP fun s => decide (s.user = u) := by
  suffices h : ∀ al, countIn (sessions.foldl (fun al s => addCount al s.user) al) u =
      countIn al u + sessions.countP (fun s => decide (s.user = u)) by
    simpa [user_counts, countIn] using h []
  induction sessions with
  | nil => intro al; simp
  | cons s rest ih =>
    intro al
    rw [List.foldl_cons, ih (addCount al s.user), countIn_addCount,
      List.countP_cons]
    by_cases h : s.user = u
    · simp [h]
      omega
    · simp [h]

theorem addCount_pos (al : List (String × ℕ)) (k : String)
    (h : ∀ p ∈ al, 0 < p.2) : ∀ p ∈ addCount al k, 0 < p.2 := by
  induction al with
  | nil => simp [addCount]
  | cons q rest ih =>
    obtain ⟨k2, c⟩ := q
    by_cases hk : k2 = k
    · intro p hp
      rw [addCount] at hp
      simp only [if_pos hk] at hp
      rcases List.mem_cons.mp hp with h1 | h1
      · simp [h1]
      · exact h p (List.mem_cons_of_mem _ h1)
    · intro p hp
      rw [addCount] at hp
      simp only [if_neg hk] at hp
      rcases List.mem_cons.mp hp with h1 | h1
      · exact h p (by simp [h1])
      · exact ih (fun q hq => h q (List.mem_cons_of_mem _ hq)) p h1

theorem user_counts_pos (sessions : List Session) :
    ∀ p ∈ user_counts sessions, 0 < p.2 := by
  suffices h : ∀ al, (∀ p ∈ al, 0 < p.2) →
      ∀ p ∈ sessions.foldl (fun al s => addCount al s.user) al, 0 < p.2 by
    exact h [] (by simp)
  induction sessions with
  | nil => intro al hal; simpa using hal
  | cons s rest ih =>
    intro al hal
    rw [List.foldl_cons]
    exact ih (addCount al s.user) (addCount_pos al s.user hal)

theorem has_enough_false_iff (sessions : List Session) (m : ℕ) :
    has_enough sessions m = false ↔ ∃ p ∈ user_counts sessions, p.2 < m := by
  have hfil : (user_counts sessions).filter (fun p => decide (0 < p.2)) =
      user_counts sessions :=
    List.filter_eq_self.mpr fun p hp => by
      simpa using user_counts_pos sessions p hp
  rw [Bool.eq_false_iff, Ne, has_enough, hfil, List.all_eq_true]
  constructor
  · intro h
    by_contra hc
    push_neg at hc
    exact h fun p hp => by simpa using hc p hp
  · rintro ⟨p, hp, hlt⟩ h
    exact absurd (by simpa using h p hp) (Nat.not_le_of_lt hlt)

theorem prepare_features_snd (sessions : List Session) :
    (prepare_features sessions).2 = sessions.map Session.user := rfl

/-- C7: the training failure checks run in order with the first failing
check short-circuiting — empty input fails with the no-data result;
otherwise a user label counted below `min_per_user` fails with the
insufficient-samples result carrying the per-label counts (which count
sessions per label exactly); otherwise fewer than 2 distinct labels fails
with the insufficient-classes result. -/
theorem c7_training_checks (B : Backend) (sessions : List Session) (m : ℕ)
    (tf : ℚ) :
    (sessions = [] → train_model B sessions m tf = TrainResult.noData)
    ∧ (¬ sessions = [] → (∃ p ∈ user_counts sessions, p.2 < m) →
        train_model B sessions m tf =
          TrainResult.insufficientSamples (user_counts sessions))
    ∧ (¬ sessions = [] → (∀ p ∈ user_counts sessions, m ≤ p.2) →
        ((sessions.map Session.user).dedup).length < 2 →
        train_model B sessions m tf = TrainResult.insufficientClasses)
    ∧ (∀ u : String, countIn (user_counts sessions) u =
        sessions.countP fun s => decide (s.user = u)) := by
  refine ⟨?_, ?_, ?_, countIn_user_counts sessions⟩
  · intro h
    subst h
    rfl
  · intro h1 h2
    have hlen : ¬ sessions.length = 0 := by
      simpa using fun hh => h1 (List.length_eq_zero.mp hh)
    have hfail : has_enough sessions m = false :=
      (has_enough_false_iff sessions m).mpr h2
    unfold train_model
    rw [if_neg hlen, if_pos hfail]
  · intro h1 h2 h3
    have hlen : ¬ sessions.length = 0 := by
      simpa using fun hh => h1 (List.length_eq_zero.mp hh)
    have hok : ¬ has_enough sessions m = false := by
      rw [has_enough_false_iff]
      push_neg
      exact h2
    unfold train_model
    rw [if_neg hlen, if_neg hok, if_pos (by rw [prepare_features_snd]; exact h3)]

/-- A one-session list, used to instantiate the training-gate theorems. -/
def exSessions1 : List Session := [⟨keyA, []⟩]

/-- Witness for C7: with a single session for one user, training with the
default minimum of 10 per user fails carrying the count list. -/
theorem c7_training_checks_witness :
    (¬ exSessions1 = []) ∧ (∃ p ∈ user_counts exSessions1, p.2 < 10) ∧
    train_model trivialBackend exSessions1 10 (1 / 5) =
      TrainResult.insufficientSamples (user_counts exSessions1) :=
  ⟨by decide, by decide,
    (c7_training_checks trivialBackend exSessions1 10 (1 / 5)).2.1
      (by decide) (by decide)⟩

theorem le_foldl_max (l : List ℚ) (a : ℚ) :
    a ≤ l.foldl max a ∧ ∀ x ∈ l, x ≤ l.foldl max a := by
  induction l generalizing a with
  | nil => simp
  | cons b rest ih =>
    refine ⟨le_trans (le_max_left a b) (ih (max a b)).1, ?_⟩
    intro x hx
    rcases List.mem_cons.mp hx with h | h
    · subst h
      exact le_trans (le_max_right a x) (ih (max a x)).1
    · exact (ih (max a b)).2 x h

theorem foldl_max_mem (l : List ℚ) (a : ℚ) :
    l.foldl max a = a ∨ l.foldl max a ∈ l := by
  induction l generalizing a with
  | nil => simp
  | cons b rest ih =>
    rcases ih (max a b) with h | h
    · rcases max_choice a b with hm | hm
      · left
        rw [List.foldl_cons, h, hm]
      · right
        rw [List.foldl_cons, h, hm]
        exact List.mem_cons_self b rest
    · right
      exact List.mem_cons_of_mem b h

theorem pyMax_is_max (l : List ℚ) (h : l ≠ []) :
    pyMax l ∈ l ∧ ∀ x ∈ l, x ≤ pyMax l := by
  match l, h with
  | a :: rest, _ =>
    constructor
    · rcases foldl_max_mem rest a with h1 | h1
      · rw [pyMax, h1]
        exact List.mem_cons_self a rest
      · exact List.mem_cons_of_mem a (by rw [pyMax]; exact h1)
    · intro x hx
      rcases List.mem_cons.mp hx with h1 | h1
      · subst h1
        exact (le_foldl_max rest x).1
      · exact (le_foldl_max rest a).2 x h1

/-- C9: prediction fails with the model-not-found result exactly when no
persisted model exists; otherwise it reports the predicted label on the
fixed-order feature row, the maximum class probability as confidence, and
the label-to-probability mapping over the classes known at training time.
The row built by the predictor is identical to the row built at training
time, so both use the recorded fixed feature order. -/
theorem c9_predict_user (B : Backend) (store : Option B.Model)
    (m : B.Model) (events : List KeyEvent) :
    (predict_user B store events = PredictResult.modelNotFound ↔ store = none)
    ∧ (∀ f : FeatureVector, toVectorPredict f = toVectorTrain f)
    ∧ predict_user B (some m) events =
        PredictResult.success
          (B.predictLabel m (toVectorPredict (extract_features events)))
          (pyMax (B.predictProba m (toVectorPredict (extract_features events))))
          ((B.classes m).zip
            (B.predictProba m (toVectorPredict (extract_features events))))
    ∧ (B.predictProba m (toVectorPredict (extract_features events)) ≠ [] →
        pyMax (B.predictProba m (toVectorPredict (extract_features events))) ∈
            B.predictProba m (toVectorPredict (extract_features events)) ∧
          ∀ x ∈ B.predictProba m (toVectorPredict (extract_features events)),
            x ≤ pyMax (B.predictProba m (toVectorPredict (extract_features events))))
    ∧ ((B.classes m).length ≤
          (B.predictProba m (toVectorPredict (extract_features events))).length →
        ((B.classes m).zip
            (B.predictProba m (toVectorPredict (extract_features events)))).map
          Prod.fst = B.classes m) := by
  refine ⟨?_, fun f => rfl, rfl, pyMax_is_max _, List.map_fst_zip _ _⟩
  cases store with
  | none => simp [predict_user]
  | some m2 => simp [predict_user]

/-- Witness for C9 with the trivial backend: its probability list `[1, 0]`
is nonempty, so confidence is its maximum and belongs to it. -/
theorem c9_predict_user_witness :
    (trivialBackend.predictProba ()
        (toVectorPredict (extract_features [])) ≠ []) ∧
    pyMax (trivialBackend.predictProba ()
        (toVectorPredict (extract_features []))) ∈
      trivialBackend.predictProba () (toVectorPredict (extract_features [])) := by
  have h : trivialBackend.predictProba ()
      (toVectorPredict (extract_features [])) ≠ [] := by
    simp [trivialBackend]
  exact ⟨h, ((c9_predict_user trivialBackend (some ()) () []).2.2.2.1 h).1⟩

/-- C8: with at least 10 sessions the split delegates to the external
splitter, called with the test fraction, the fixed seed 42 and the labels
as stratification argument; with fewer than 10 sessions the train and test
partitions are both the full dataset; and a training run that passes all
checks returns the success report carrying the accuracy on the test
partition, the per-label counts, the total session count, the train size
and the test size. -/
theorem c8_split_policy (B : Backend) (sessions : List Session) (m : ℕ)
    (tf : ℚ) (X : List (List ℝ)) (y : List String)
    (h1 : ¬ sessions = [])
    (h2 : ∀ p ∈ user_counts sessions, m ≤ p.2)
    (h3 : ¬ ((sessions.map Session.user).dedup).length < 2) :
    (sessions.length < 10 → splitData B X y tf sessions.length = (X, X, y, y))
    ∧ (10 ≤ sessions.length →
        splitData B X y tf sessions.length = B.splitFn X y tf 42 y)
    ∧ train_model B sessions m tf =
        TrainResult.success
          (accuracy_score
            (splitData B (prepare_features sessions).1 (prepare_features sessions).2
                tf sessions.length).2.2.2
            ((splitData B (prepare_features sessions).1 (prepare_features sessions).2
                tf sessions.length).2.1.map
              (B.predictLabel
                (B.fit
                  (splitData B (prepare_features sessions).1
                      (prepare_features sessions).2 tf sessions.length).1
                  (splitData B (prepare_features sessions).1
                      (prepare_features sessions).2 tf sessions.length).2.2.1))))
          (user_counts sessions)
          sessions.length
          (splitData B (prepare_features sessions).1 (prepare_features sessions).2
              tf sessions.length).1.length
          (splitData B (prepare_features sessions).1 (prepare_features sessions).2
              tf sessions.length).2.1.length := by
  refine ⟨?_, ?_, ?_⟩
  · intro h
    unfold splitData
    rw [if_neg (Nat.not_le_of_lt h)]
  · intro h
    unfold splitData
    rw [if_pos h]
  · have hlen : ¬ sessions.length = 0 := by
      simpa using fun hh => h1 (List.length_eq_zero.mp hh)
    have hok : ¬ has_enough sessions m = false := by
      rw [has_enough_false_iff]
      push_neg
      exact h2
    have hcls : ¬ ((prepare_features sessions).2.dedup).length < 2 := by
      rw [prepare_features_snd]
      exact h3
    unfold train_model
    rw [if_neg hlen, if_neg hok, if_neg hcls]

/-- Two sessions with two distinct users, used to instantiate C8. -/
def exSessions2 : List Session := [⟨keyA, []⟩, ⟨keyB, []⟩]

/-- Witness for C8 at a two-session dataset (below the split threshold):
train and test partitions are both the full data. -/
theorem c8_split_policy_witness :
    (¬ exSessions2 = []) ∧ (∀ p ∈ user_counts exSessions2, 1 ≤ p.2) ∧
    (¬ ((exSessions2.map Session.user).dedup).length < 2) ∧
    exSessions2.length < 10 ∧
    splitData trivialBackend [] [] (1 / 5) exSessions2.length = ([], [], [], []) :=
  ⟨by decide, by decide, by decide, by decide,
    (c8_split_policy trivialBackend exSessions2 1 (1 / 5) [] []
        (by decide) (by decide) (by decide)).1 (by decide)⟩

/-- Press events as `(timestamp, key)` pairs in event order. -/
def pressPairs (events : List KeyEvent) : List (ℚ × String) :=
  events.filterMap fun e =>
    match e.type with
    | EType.down => some (e.t, e.key)
    | EType.up => none

theorem flattenAl_cons (p : String × List ℚ) (rest : List (String × List ℚ)) :
    flattenAl (p :: rest) = (p.2.map fun x => (x, p.1)) ++ flattenAl rest := rfl

theorem flattenAl_addDown (al : List (String × List ℚ)) (k : String) (x : ℚ) :
    (flattenAl (addDown al k x)).Perm (flattenAl al ++ [(x, k)]) := by
  induction al with
  | nil => simp [flattenAl, addDown]
  | cons p rest ih =>
    obtain ⟨k2, ts⟩ := p
    rw [addDown]
    by_cases h : k2 = k
    · subst h
      rw [if_pos rfl]
      simp only [flattenAl_cons, List.map_append, List.map_cons, List.map_nil,
        List.append_assoc]
      exact List.Perm.append_left _ List.perm_append_comm
    · rw [if_neg h]
      simp only [flattenAl_cons, List.append_assoc]
      exact List.Perm.append_left _ ih

theorem flattenAl_foldl_perm (events : List KeyEvent) :
    ∀ al, (flattenAl (events.foldl kdStep al)).Perm
      (flattenAl al ++ pressPairs events) := by
  induction events with
  | nil => intro al; simp [pressPairs]
  | cons e rest ih =>
    intro al
    obtain ⟨k, ty, x⟩ := e
    cases ty
    · rw [List.foldl_cons, show kdStep al ⟨k, EType.down, x⟩ = addDown al k x
        from rfl]
      refine (ih (addDown al k x)).trans ?_
      rw [show pressPairs (⟨k, EType.down, x⟩ :: rest) =
        (x, k) :: pressPairs rest from rfl]
      refine ((flattenAl_addDown al k x).append_right _).trans ?_
      rw [List.append_assoc, List.singleton_append]
    · rw [List.foldl_cons, show kdStep al ⟨k, EType.up, x⟩ = al from rfl,
        show pressPairs (⟨k, EType.up, x⟩ :: rest) = pressPairs rest from rfl]
      exact ih al

theorem allDowns_perm_pressPairs (events : List KeyEvent) :
    (allDowns events).Perm (pressPairs events) := by
  have h := flattenAl_foldl_perm events []
  simpa [allDowns, keydownsList, flattenAl] using h

theorem map_fst_pressPairs (events : List KeyEvent) :
    (pressPairs events).map Prod.fst = pressTimestamps events := by
  induction events with
  | nil => rfl
  | cons e rest ih =>
    obtain ⟨k, ty, x⟩ := e
    cases ty
    · simpa [pressPairs, pressTimestamps] using ih
    · simpa [pressPairs, pressTimestamps] using ih

theorem sorted_le_map_fst (l : List (ℚ × String)) (h : List.Sorted leF l) :
    List.Sorted (fun a b : ℚ => a ≤ b) (l.map Prod.fst) := by
  rw [List.Sorted, List.pairwise_map]
  exact h

theorem sortQ_eq_of_perm (l1 l2 : List ℚ) (h : l1.Perm l2) :
    sortQ l1 = sortQ l2 :=
  List.eq_of_perm_of_sorted
    ((List.perm_insertionSort _ l1).trans (h.trans (List.perm_insertionSort _ l2).symm))
    (List.sorted_insertionSort _ l1) (List.sorted_insertionSort _ l2)

theorem flight_eq_spec (events : List KeyEvent) :
    flightTimes events = flightSpec events := by
  have hkey : ((List.insertionSort leF (allDowns events)).map Prod.fst) =
      sortQ (pressTimestamps events) := by
    refine List.eq_of_perm_of_sorted ?_
      (sorted_le_map_fst _ (List.sorted_insertionSort leF _))
      (List.sorted_insertionSort _ _)
    refine ((List.perm_insertionSort leF _).map _).trans ?_
    refine ((allDowns_perm_pressPairs events).map _).trans ?_
    rw [map_fst_pressPairs]
    exact (List.perm_insertionSort _ _).symm
  rw [flightTimes, flightSpec, hkey]

/-- C5: flight samples are exactly the strictly positive consecutive
differences of all press-event timestamps sorted ascending, ignoring key
identifiers; two distinct keys pressed at t=0 and t=50 (later released)
give the flight sample 50, and simultaneous presses contribute no sample. -/
theorem c5_flight_times :
    (∀ events : List KeyEvent,
      flightTimes events = posDiffs (sortQ (pressTimestamps events)))
    ∧ flightTimes [evDown keyA 0, evDown keyB 50, evUp keyA 60, evUp keyB 80] = [50]
    ∧ (50 : ℚ) ∈
        flightTimes [evDown keyA 0, evDown keyB 50, evUp keyA 60, evUp keyB 80]
    ∧ flightTimes [evDown keyA 0, evDown keyB 0, evUp keyA 60, evUp keyB 80] = [] := by
  have h1 : flightTimes [evDown keyA 0, evDown keyB 50, evUp keyA 60, evUp keyB 80] =
      [50] := by
    simp [flightTimes, allDowns, flattenAl, keydownsList, kdStep, addDown, evDown,
      evUp, keyA, keyB, leF, List.insertionSort, List.orderedInsert, posDiffs]
    try norm_num
    try simp [posDiffs]
    try norm_num
  have h2 : flightTimes [evDown keyA 0, evDown keyB 0, evUp keyA 60, evUp keyB 80] =
      [] := by
    simp [flightTimes, allDowns, flattenAl, keydownsList, kdStep, addDown, evDown,
      evUp, keyA, keyB, leF, List.insertionSort, List.orderedInsert, posDiffs]
    try norm_num
    try simp [posDiffs]
    try norm_num
  exact ⟨flight_eq_spec, h1, by rw [h1]; exact List.mem_singleton.mpr rfl, h2⟩

/-- Press timestamps of one key, in event order. -/
def pressTsOfKey (k : String) (l : List KeyEvent) : List ℚ :=
  (l.filter fun e => decide (e.type = EType.down) && decide (e.key = k)).map
    KeyEvent.t

theorem dwellRun_append (l : List KeyEvent) (e : KeyEvent) :
    dwellRun (l ++ [e]) = dwellStep (dwellRun l) e := by
  simp [dwellRun, List.foldl_append]

theorem pressTsOfKey_append_down (k k2 : String) (x : ℚ) (l : List KeyEvent) :
    pressTsOfKey k (l ++ [⟨k2, EType.down, x⟩]) =
      pressTsOfKey k l ++ (if k2 = k then [x] else []) := by
  by_cases h : k2 = k
  · simp [pressTsOfKey, List.filter_append, h]
  · simp [pressTsOfKey, List.filter_append, h]

theorem pressTsOfKey_append_up (k k2 : String) (x : ℚ) (l : List KeyEvent) :
    pressTsOfKey k (l ++ [⟨k2, EType.up, x⟩]) = pressTsOfKey k l := by
  simp [pressTsOfKey, List.filter_append]

theorem dwellRun_queue_drop (l : List KeyEvent) :
    ∀ k, ∃ d, d ≤ (pressTsOfKey k l).length ∧
      (dwellRun l).1 k = (pressTsOfKey k l).drop d := by
  induction l using List.reverseRecOn with
  | nil => intro k; exact ⟨0, by simp [dwellRun, pressTsOfKey]⟩
  | append_singleton l e ih =>
    intro k
    obtain ⟨k2, ty, x⟩ := e
    cases ty
    · obtain ⟨d, hd, hq⟩ := ih k
      rw [dwellRun_append, pressTsOfKey_append_down,
        show dwellStep (dwellRun l) ⟨k2, EType.down, x⟩ =
          (qpush (dwellRun l).1 k2 x, (dwellRun l).2) from rfl]
      by_cases hk : k = k2
      · subst hk
        refine ⟨d, ?_, ?_⟩
        · rw [if_pos rfl]
          simp only [List.length_append, List.length_singleton]
          omega
        · rw [if_pos rfl]
          show qpush (dwellRun l).1 k x k = (pressTsOfKey k l ++ [x]).drop d
          rw [show qpush (dwellRun l).1 k x k = (dwellRun l).1 k ++ [x] from by
              simp [qpush]]
          rw [hq, List.drop_append_eq_append_drop, Nat.sub_eq_zero_of_le hd,
            List.drop_zero]
      · refine ⟨d, ?_, ?_⟩
        · rw [if_neg (fun hh => hk hh.symm)]
          simpa using hd
        · rw [if_neg (fun hh => hk hh.symm)]
          show qpush (dwellRun l).1 k2 x k = (pressTsOfKey k l ++ []).drop d
          rw [show qpush (dwellRun l).1 k2 x k = (dwellRun l).1 k from by
              simp [qpush, hk]]
          simpa using hq
    · rw [dwellRun_append, pressTsOfKey_append_up]
      cases hQ : (dwellRun l).1 k2 with
      | nil =>
        rw [show dwellStep (dwellRun l) ⟨k2, EType.up, x⟩ = dwellRun l from by
          simp [dwellStep, hQ]]
        exact ih k
      | cons t0 rest =>
        rw [show dwellStep (dwellRun l) ⟨k2, EType.up, x⟩ =
            (qset (dwellRun l).1 k2 rest,
              if x - t0 > 0 then (dwellRun l).2 ++ [x - t0]
              else (dwellRun l).2) from by simp [dwellStep, hQ]]
        by_cases hk : k = k2
        · subst hk
          obtain ⟨d, hd, hq⟩ := ih k
          have hrest : rest = (pressTsOfKey k l).drop (d + 1) := by
            rw [← List.tail_drop, ← hq, hQ]
            rfl
          have hdlt : d < (pressTsOfKey k l).length := by
            by_contra hc
            push_neg at hc
            rw [List.drop_eq_nil_of_le hc] at hq
            rw [hq] at hQ
            exact List.noConfusion hQ
          refine ⟨d + 1, by omega, ?_⟩
          show qset (dwellRun l).1 k rest k = (pressTsOfKey k l).drop (d + 1)
          rw [show qset (dwellRun l).1 k rest k = rest from by simp [qset], hrest]
        · obtain ⟨d, hd, hq⟩ := ih k
          refine ⟨d, hd, ?_⟩
          show qset (dwellRun l).1 k2 rest k = (pressTsOfKey k l).drop d
          rw [show qset (dwellRun l).1 k2 rest k = (dwellRun l).1 k from by
            simp [qset, hk], hq]

/-- C4: after the stable sort, dwell matching is per-key FIFO — a press
enqueues its timestamp at the tail of its key's queue, a release pops the
queue head (the oldest pending press, since the queue always holds a
suffix of that key's presses in order) and records the difference exactly
when strictly positive, and a release finding an empty queue changes
nothing and is no error; `dwell_times` is the sample list of this loop run
over the sorted events. -/
theorem c4_dwell_fifo :
    (∀ (st : (String → List ℚ) × List ℚ) (e : KeyEvent),
      e.type = EType.down → dwellStep st e = (qpush st.1 e.key e.t, st.2))
    ∧ (∀ (st : (String → List ℚ) × List ℚ) (e : KeyEvent),
        e.type = EType.up → st.1 e.key = [] → dwellStep st e = st)
    ∧ (∀ (st : (String → List ℚ) × List ℚ) (e : KeyEvent) (t0 : ℚ)
        (rest : List ℚ), e.type = EType.up → st.1 e.key = t0 :: rest →
        dwellStep st e = (qset st.1 e.key rest,
          if e.t - t0 > 0 then st.2 ++ [e.t - t0] else st.2))
    ∧ (∀ (l : List KeyEvent) (e : KeyEvent),
        dwellRun (l ++ [e]) = dwellStep (dwellRun l) e)
    ∧ (∀ events : List KeyEvent,
        dwellTimes events = (dwellRun (sortByTime events)).2)
    ∧ (∀ (l : List KeyEvent) (k : String), ∃ d,
        d ≤ (pressTsOfKey k l).length ∧
        (dwellRun l).1 k = (pressTsOfKey k l).drop d) := by
  refine ⟨?_, ?_, ?_, dwellRun_append, fun _ => rfl, dwellRun_queue_drop⟩
  · intro st e h
    obtain ⟨k, ty, x⟩ := e
    cases ty
    · rfl
    · exact absurd h (by simp)
  · intro st e h hq
    obtain ⟨k, ty, x⟩ := e
    cases ty
    · exact absurd h (by simp)
    · simp [dwellStep, hq]
  · intro st e t0 rest h hq
    obtain ⟨k, ty, x⟩ := e
    cases ty
    · exact absurd h (by simp)
    · simp [dwellStep, hq]

/-- Witness for C4: a release event popping the single pending press of its
key records the positive difference branch. -/
theorem c4_dwell_fifo_witness :
    (evUp keyA 5).type = EType.up ∧
    ((fun _ : String => [(3 : ℚ)], ([] : List ℚ)).1 (evUp keyA 5).key =
      [(3 : ℚ)]) ∧
    dwellStep (fun _ : String => [(3 : ℚ)], ([] : List ℚ)) (evUp keyA 5) =
      (qset (fun _ : String => [(3 : ℚ)]) (evUp keyA 5).key [],
        if (evUp keyA 5).t - 3 > 0 then [] ++ [(evUp keyA 5).t - 3] else []) :=
  ⟨rfl, rfl,
    (c4_dwell_fifo.2.2.1 (fun _ => [(3 : ℚ)], []) (evUp keyA 5) 3 [] rfl rfl)⟩

theorem fmedian_eq_medianSpec (l : List ℚ) (h : ¬ l = []) :
    fmedian l = medianSpec l := by
  have hlen : l.length ≠ 0 := by
    simpa using fun hh => h (List.length_eq_zero.mp hh)
  unfold fmedian medianSpec sortQ
  by_cases hp : l.length % 2 = 1
  · rw [if_pos hp, show (l.length - 1) / 2 = l.length / 2 from by omega]
    exact (add_self_div_two _).symm
  · rw [if_neg hp, show (l.length - 1) / 2 = l.length / 2 - 1 from by omega]

/-- C6: each sample set reduces to `(mean, std, median)` with all three
zero on the empty set; the standard deviation is the square root of the
sample (n−1) variance when the set has more than one element and zero
otherwise; the median is the middle element (or the average of the two
middle elements) of the sorted samples; `extract_features` returns the six
values in the fixed order dwell then flight, each as mean, std, median;
and the single-keystroke example of the specification evaluates to
`(100, 0, 100, 0, 0, 0)`. -/
theorem c6_stats :
    calc_stats [] = ((0 : ℚ), (0 : ℝ), (0 : ℚ))
    ∧ (∀ l : List ℚ, ¬ l = [] →
        (calc_stats l).1 = l.sum / l.length ∧ (calc_stats l).2.2 = medianSpec l)
    ∧ (∀ l : List ℚ, 1 < l.length →
        (calc_stats l).2.1 = Real.sqrt
          (((((l.map fun x => (x - l.sum / l.length) ^ 2).sum) /
            ((l.length : ℚ) - 1) : ℚ) : ℝ)))
    ∧ (∀ l : List ℚ, l.length ≤ 1 → (calc_stats l).2.1 = 0)
    ∧ (∀ events : List KeyEvent, ¬ events.length < 2 →
        extract_features events =
          ⟨(calc_stats (dwellTimes events)).1, (calc_stats (dwellTimes events)).2.1,
            (calc_stats (dwellTimes events)).2.2, (calc_stats (flightTimes events)).1,
            (calc_stats (flightTimes events)).2.1,
            (calc_stats (flightTimes events)).2.2⟩)
    ∧ extract_features [evDown keyA 0, evUp keyA 100] =
        ⟨100, 0, 100, 0, 0, 0⟩ := by
  refine ⟨by simp [calc_stats], ?_, ?_, ?_, ?_, ?_⟩
  · intro l h
    rw [calc_stats, if_neg h]
    exact ⟨rfl, fmedian_eq_medianSpec l h⟩
  · intro l h
    have h0 : ¬ l = [] := by
      intro hh
      rw [hh] at h
      simp at h
    rw [calc_stats, if_neg h0]
    show fstdev l = _
    rw [fstdev, if_pos h]
    rfl
  · intro l h
    by_cases h0 : l = []
    · rw [h0]
      simp [calc_stats]
    · rw [calc_stats, if_neg h0]
      show fstdev l = 0
      rw [fstdev, if_neg (by omega)]
  · intro events h
    unfold extract_features
    rw [if_neg h]
  · have hdw : dwellTimes [evDown keyA 0, evUp keyA 100] = [100] := by
      simp [dwellTimes, dwellRun, sortByTime, dwellStep, qpush, qset, evDown, evUp,
        leT, keyA, keyB, List.insertionSort, List.orderedInsert]
      try norm_num
    have hfl : flightTimes [evDown keyA 0, evUp keyA 100] = [] := by
      simp [flightTimes, allDowns, flattenAl, keydownsList, kdStep, addDown, evDown,
        evUp, keyA, keyB, leF, List.insertionSort, List.orderedInsert, posDiffs]
      try norm_num
      try simp [posDiffs]
    have hcs1 : calc_stats [100] = ((100 : ℚ), (0 : ℝ), (100 : ℚ)) := by
      rw [calc_stats, if_neg (by simp)]
      have hm : fmean [100] = 100 := by norm_num [fmean]
      have hs : fstdev [100] = 0 := by rw [fstdev, if_neg (by simp)]
      have hd : fmedian [100] = 100 := by
        simp [fmedian, List.insertionSort, List.orderedInsert]
      rw [hm, hs, hd]
    have hcs0 : calc_stats [] = ((0 : ℚ), (0 : ℝ), (0 : ℚ)) := by simp [calc_stats]
    unfold extract_features
    rw [if_neg (by decide), hdw, hfl, hcs1, hcs0]

/-- Witness for C6 at the two-element sample list `[3, 5]`. -/
theorem c6_stats_witness :
    (¬ ([3, 5] : List ℚ) = []) ∧ (1 < ([3, 5] : List ℚ).length) ∧
    (calc_stats [3, 5]).2.2 = medianSpec [3, 5] ∧
    (calc_stats [3, 5]).2.1 = Real.sqrt
      ((((([3, 5] : List ℚ).map fun x =>
          (x - ([3, 5] : List ℚ).sum / ([3, 5] : List ℚ).length) ^ 2).sum /
        ((([3, 5] : List ℚ).length : ℚ) - 1) : ℚ) : ℝ)) :=
  ⟨by decide, by decide, (c6_stats.2.1 [3, 5] (by decide)).2,
    c6_stats.2.2.1 [3, 5] (by decide)⟩

/-- Strict timestamp order on events. -/
def ltT (a b : KeyEvent) : Prop := a.t < b.t

theorem sortByTime_eq_of_perm (l1 l2 : List KeyEvent) (hp : l1.Perm l2)
    (hn : (l1.map KeyEvent.t).Nodup) : sortByTime l1 = sortByTime l2 := by
  have hn2 : (l2.map KeyEvent.t).Nodup := ((hp.map KeyEvent.t).nodup_iff).mp hn
  have hperm : (sortByTime l1).Perm (sortByTime l2) :=
    (List.perm_insertionSort leT l1).trans
      (hp.trans (List.perm_insertionSort leT l2).symm)
  have hs1 : (sortByTime l1).Pairwise ltT := by
    have hle : (sortByTime l1).Pairwise leT := List.sorted_insertionSort leT l1
    have hmap : ((sortByTime l1).map KeyEvent.t).Nodup :=
      (((List.perm_insertionSort leT l1).map KeyEvent.t).nodup_iff).mpr hn
    have hne : (sortByTime l1).Pairwise fun a b => a.t ≠ b.t :=
      List.pairwise_map.mp hmap
    exact (hle.and hne).imp fun hab => lt_of_le_of_ne hab.1 hab.2
  have hs2 : (sortByTime l2).Pairwise ltT := by
    have hle : (sortByTime l2).Pairwise leT := List.sorted_insertionSort leT l2
    have hmap : ((sortByTime l2).map KeyEvent.t).Nodup :=
      (((List.perm_insertionSort leT l2).map KeyEvent.t).nodup_iff).mpr hn2
    have hne : (sortByTime l2).Pairwise fun a b => a.t ≠ b.t :=
      List.pairwise_map.mp hmap
    exact (hle.and hne).imp fun hab => lt_of_le_of_ne hab.1 hab.2
  haveI : IsAntisymm KeyEvent ltT := ⟨fun _ _ h1 h2 => absurd h1 (lt_asymm h2)⟩
  exact List.eq_of_perm_of_sorted hperm hs1 hs2

theorem extract_features_perm (l1 l2 : List KeyEvent) (hp : l1.Perm l2)
    (hn : (l1.map KeyEvent.t).Nodup) :
    extract_features l1 = extract_features l2 := by
  have hlen := hp.length_eq
  by_cases h2 : l1.length < 2
  · have h2' : l2.length < 2 := hlen ▸ h2
    unfold extract_features
    rw [if_pos h2, if_pos h2']
  · have h2' : ¬ l2.length < 2 := by rw [← hlen]; exact h2
    have hdw : dwellTimes l1 = dwellTimes l2 := by
      unfold dwellTimes
      rw [sortByTime_eq_of_perm l1 l2 hp hn]
    have hfl : flightTimes l1 = flightTimes l2 := by
      rw [flight_eq_spec, flight_eq_spec]
      unfold flightSpec
      have hpp : (pressTimestamps l1).Perm (pressTimestamps l2) := by
        unfold pressTimestamps
        exact (hp.filter _).map _
      rw [sortQ_eq_of_perm _ _ hpp]
    unfold extract_features
    rw [if_neg h2, if_neg h2', hdw, hfl]

theorem dwellTimes_single100 : dwellTimes [evDown keyA 0, evUp keyA 100] = [100] := by
  simp [dwellTimes, dwellRun, sortByTime, dwellStep, qpush, qset, evDown, evUp,
    leT, keyA, keyB, List.insertionSort, List.orderedInsert]
  try norm_num

theorem dwellTimes_single50 : dwellTimes [evDown keyA 0, evUp keyA 50] = [50] := by
  simp [dwellTimes, dwellRun, sortByTime, dwellStep, qpush, qset, evDown, evUp,
    leT, keyA, keyB, List.insertionSort, List.orderedInsert]
  try norm_num

theorem dwell_mean_of_single (events : List KeyEvent) (x : ℚ)
    (hlen : ¬ events.length < 2) (hdw : dwellTimes events = [x]) :
    (extract_features events).dwell_mean = x := by
  unfold extract_features
  rw [if_neg hlen]
  show (calc_stats (dwellTimes events)).1 = x
  rw [hdw, calc_stats, if_neg (by simp)]
  norm_num [fmean]

/-- C1 (amended): `extract_features` is invariant under every permutation
of the input events when all timestamps are pairwise distinct (the sort
then determines the processing order completely); reordering events that
share a timestamp can change the result, because the stable sort keeps
ties in input order (see the counterexample); and changing timestamp
values can change the result. -/
theorem c1_permutation_invariance :
    (∀ l1 l2 : List KeyEvent, l1.Perm l2 → (l1.map KeyEvent.t).Nodup →
      extract_features l1 = extract_features l2)
    ∧ extract_features [evDown keyA 0, evUp keyA 100] ≠
        extract_features [evDown keyA 0, evUp keyA 50] := by
  refine ⟨extract_features_perm, ?_⟩
  intro h
  have hm := congrArg FeatureVector.dwell_mean h
  rw [dwell_mean_of_single _ 100 (by decide) dwellTimes_single100,
    dwell_mean_of_single _ 50 (by decide) dwellTimes_single50] at hm
  norm_num at hm

/-- Witness for C1 (amended): a two-event sequence with distinct
timestamps, reversed. -/
theorem c1_permutation_invariance_witness :
    List.Perm [evDown keyA 0, evUp keyA 100] [evUp keyA 100, evDown keyA 0]
    ∧ ([evDown keyA 0, evUp keyA 100].map KeyEvent.t).Nodup
    ∧ extract_features [evDown keyA 0, evUp keyA 100] =
        extract_features [evUp keyA 100, evDown keyA 0] :=
  ⟨by decide, by decide,
    c1_permutation_invariance.1 _ _ (by decide) (by decide)⟩

/-- Event list A of the C1 counterexample. -/
def exC1a : List KeyEvent :=
  [evUp keyA 5, evDown keyB 5, evDown keyA 5, evUp keyA 10]

/-- Event list B of the C1 counterexample: A with the non-adjacent
equal-timestamp events at positions 0 and 2 swapped. -/
def exC1b : List KeyEvent :=
  [evDown keyA 5, evDown keyB 5, evUp keyA 5, evUp keyA 10]

theorem dwellTimes_exC1a : dwellTimes exC1a = [5] := by
  simp [dwellTimes, dwellRun, sortByTime, dwellStep, qpush, qset, evDown, evUp,
    leT, keyA, keyB, exC1a, List.insertionSort, List.orderedInsert]
  try norm_num
  try simp [dwellStep, qpush, qset]
  try norm_num

theorem dwellTimes_exC1b : dwellTimes exC1b = [] := by
  simp [dwellTimes, dwellRun, sortByTime, dwellStep, qpush, qset, evDown, evUp,
    leT, keyA, keyB, exC1b, List.insertionSort, List.orderedInsert]
  try norm_num
  try simp [dwellStep, qpush, qset]
  try norm_num

/-- Counterexample to C1 as stated: `exC1b` is a permutation of `exC1a`
obtained by swapping the two non-adjacent events at positions 0 and 2,
which carry the same timestamp 5, yet the extracted features differ (list
A yields the dwell sample 5, list B yields none). -/
theorem c1_counterexample :
    List.Perm exC1a exC1b
    ∧ exC1b = [exC1a.get ⟨2, by decide⟩, exC1a.get ⟨1, by decide⟩,
        exC1a.get ⟨0, by decide⟩, exC1a.get ⟨3, by decide⟩]
    ∧ (exC1a.get ⟨0, by decide⟩).t = (exC1a.get ⟨2, by decide⟩).t
    ∧ extract_features exC1a ≠ extract_features exC1b := by
  refine ⟨by decide, by decide, by decide, ?_⟩
  intro h
  have hm := congrArg FeatureVector.dwell_mean h
  rw [dwell_mean_of_single _ 5 (by decide) dwellTimes_exC1a] at hm
  have e2 : (extract_features exC1b).dwell_mean = 0 := by
    unfold extract_features
    rw [if_neg (by decide)]
    show (calc_stats (dwellTimes exC1b)).1 = 0
    rw [dwellTimes_exC1b]
    simp [calc_stats]
  rw [e2] at hm
  norm_num at hm

end Keystyle
